import Mathlib

/-!
Verification of the multiplayer typing-race server's race engine
(`GameService` in `src/server/src/service/monitoring-service.ts`, the
event handler in the socket setup file, and `SelfHealingService`).

JS numbers are modelled as rationals (`ℚ`): every arithmetic the engine
performs on them (comparison, `+`, `-`, `*`, `/`, `Math.min`, `Math.abs`)
is exact on the values that occur.  Nullable numbers are `Option ℚ`.
JS truthiness of a nullable number (`!x`, `x || d`, `x ?? d`) is modelled
by the `jsTruthy` / `jsOr` helpers: `null` and `0` are falsy.

Each engine operation is a pure function from the session (plus the
session's stored replay, when it touches it) to the updated state together
with the server events it emits and the timers it arms.  An operation that
throws (unknown game, wrong state, unknown player) returns `none`; in the
source every such throw happens before any mutation.

The race text is modelled by its length (`textLength`): the engine reads
the text only through `game.text.length` (the position formula), and no
claim touches the characters themselves.
-/

set_option synthInstance.maxSize 512

namespace TypeRacer

/-- The session state machine of the race engine. -/
inductive GameState where
  | WAITING
  | COUNTDOWN
  | RACING
  | FINISHED
deriving DecidableEq

/-- A participant of a session (server type `Player`). -/
structure Player where
  id : String
  name : String
  color : String
  position : ℚ
  wpm : ℚ
  accuracy : ℚ
  currentIndex : ℚ
  isReady : Bool
  finishTime : Option ℚ
  isConnected : Bool
  isSpectator : Bool
deriving DecidableEq

/-- A race session (server type `GameSession`). -/
structure GameSession where
  id : String
  state : GameState
  players : List Player
  textLength : Nat
  startTime : Option ℚ
  endTime : Option ℚ
  maxPlayers : Nat
  countdown : Option Int
deriving DecidableEq

/-- One replay point (server type `ProgressSnapshot`). -/
structure ProgressSnapshot where
  timestamp : ℚ
  position : ℚ
  currentIndex : ℚ
  wpm : ℚ
  accuracy : ℚ
deriving DecidableEq

/-- Finalized per-player stats inside a replay (`PlayerReplay.finalStats`).
Initialized with `finishTime: null, rank: null`. -/
structure FinalStats where
  wpm : ℚ
  accuracy : ℚ
  finishTime : Option ℚ
  rank : Option ℚ
deriving DecidableEq

/-- Per-player replay data (server type `PlayerReplay`). -/
structure PlayerReplay where
  id : String
  name : String
  color : String
  progressSnapshots : List ProgressSnapshot
  finalStats : FinalStats
deriving DecidableEq

/-- Per-session replay data (server type `RaceReplay`). -/
structure RaceReplay where
  gameId : String
  textLength : Nat
  startTime : ℚ
  endTime : Option ℚ
  players : List PlayerReplay
deriving DecidableEq

/-- The ranking entries `endRace` emits in the race summary. -/
structure RankedEntry where
  id : String
  name : String
  rank : Nat
  wpm : ℚ
  accuracy : ℚ
  finished : Bool
deriving DecidableEq

/-- The race summary emitted with `game_finished`. -/
structure RaceSummary where
  gameId : String
  totalTime : ℚ
  rankings : List RankedEntry
  avgWpm : ℚ
  avgAccuracy : ℚ
  finishRate : ℚ
  replayAvailable : Bool
deriving DecidableEq

/-- Outbound server events relevant to the claims. -/
inductive ServerEvent where
  | gameCountdown (gameId : String) (countdown : Int)
  | gameStarted (gameId : String) (startTime : ℚ)
  | gameFinished (gameId : String) (summary : RaceSummary)
  | progressUpdate (gameId : String) (playerId : String)
deriving DecidableEq

/-- Timers an operation arms (`setTimeout`); payloads are irrelevant to the
claims, only which timers get scheduled. -/
inductive TimerReq where
  | cleanupAfterDelay
  | raceDeadline
deriving DecidableEq

/-- JS truthiness of a nullable number: `null` and `0` are falsy.
`jsTruthy x = none` means `x` is falsy. -/
def jsTruthy : Option ℚ → Option ℚ
  | none => none
  | some t => if t = 0 then none else some t

/-- `x || d` on a nullable number. -/
def jsOr (x : Option ℚ) (d : ℚ) : ℚ :=
  match jsTruthy x with
  | none => d
  | some t => t

/-- `Math.min` on two (finite) numbers. -/
def jsMin (a b : ℚ) : ℚ := if a ≤ b then a else b

/-- `Math.abs` on a (finite) number. -/
def jsAbs (a : ℚ) : ℚ := if a < 0 then -a else a

/-- Replace the first element satisfying the test (JS `find` + mutation of
the found object). -/
def updateFirstBy {α : Type} (test : α → Bool) (f : α → α) : List α → List α
  | [] => []
  | x :: xs => if test x then f x :: xs else x :: updateFirstBy test f xs

/-- `game.players.find(p => p.id === playerId)`. -/
def findPlayer (g : GameSession) (pid : String) : Option Player :=
  g.players.find? (fun p => p.id == pid)

/-- `game.players.filter(p => p.isConnected && !p.isSpectator)` — the
connected non-spectator players every ranking and finish check uses. -/
def membersOf (g : GameSession) : List Player :=
  g.players.filter (fun p => p.isConnected && !p.isSpectator)

/-- Same filter, applied to a bare player list. -/
def connectedRacers (players : List Player) : List Player :=
  players.filter (fun p => p.isConnected && !p.isSpectator)

/-- The comparator of `getPlayerRank` (monitoring-service.ts:1554-1562).
Only its sign matters to `sort`. -/
def compareRank (a b : Player) : ℚ :=
  if b.position = a.position then
    match a.finishTime, b.finishTime with
    | some ta, some tb => ta - tb
    | some _, none => -1
    | none, some _ => 1
    | none, none => 0
  else b.position - a.position

/-- The comparator of the `rankedPlayers` sort inside `endRace`
(monitoring-service.ts:1771-1776): `(a.finishTime || Infinity) -
(b.finishTime || Infinity)` on position ties.  `|| Infinity` turns both
`null` and `0` into `Infinity`; `Infinity - Infinity` is `NaN`, which the
sort treats as "keep order", i.e. sign 0; `t - Infinity` is negative and
`Infinity - t` positive for finite `t`.  Only the sign is modelled. -/
def compareEnd (a b : Player) : ℚ :=
  if b.position = a.position then
    match jsTruthy a.finishTime, jsTruthy b.finishTime with
    | some ta, some tb => ta - tb
    | some _, none => -1
    | none, some _ => 1
    | none, none => 0
  else b.position - a.position

/-- JS `sort` puts `a` before `b` when the comparator is negative and keeps
input order when it is zero; a stable sort with this non-strict relation
reproduces it. -/
def rankLe (a b : Player) : Prop := compareRank a b ≤ 0

/-- The non-strict relation of the `endRace` comparator. -/
def endLe (a b : Player) : Prop := compareEnd a b ≤ 0

instance : DecidableRel rankLe := fun a b =>
  inferInstanceAs (Decidable (compareRank a b ≤ 0))

instance : DecidableRel endLe := fun a b =>
  inferInstanceAs (Decidable (compareEnd a b ≤ 0))

/-- `[...players].filter(connected non-spectator).sort(getPlayerRank's
comparator)`; JS `sort` is stable, modelled by stable insertion sort. -/
def rankSortList (players : List Player) : List Player :=
  (connectedRacers players).insertionSort rankLe

/-- The `rankedPlayers` sort of `endRace` (same filter, its comparator). -/
def endSortList (players : List Player) : List Player :=
  (connectedRacers players).insertionSort endLe

/-- `getPlayerRank` on a player list: index in the sorted order plus one;
JS `findIndex` yields `-1` when absent, so the rank is then `0`. -/
def rankOfList (players : List Player) (pid : String) : Int :=
  match (rankSortList players).findIdx? (fun p => p.id == pid) with
  | some i => (i : Int) + 1
  | none => 0

/-- `GameService.getPlayerRank` (monitoring-service.ts:1551-1566). -/
def getPlayerRank (g : GameSession) (pid : String) : Int :=
  rankOfList g.players pid

/-- `.map((player, index) => ({..., rank: index + 1, finished: position >=
100}))`, carrying the running index. -/
def rankedFrom (n : Nat) : List Player → List RankedEntry
  | [] => []
  | p :: ps =>
      { id := p.id, name := p.name, rank := n + 1, wpm := p.wpm,
        accuracy := p.accuracy, finished := decide (100 ≤ p.position) }
        :: rankedFrom (n + 1) ps

/-- The `rankedPlayers` list `endRace` builds from a player list. -/
def endRankList (players : List Player) : List RankedEntry :=
  rankedFrom 0 (endSortList players)

/-- `GameService.canStartGame` (monitoring-service.ts:1442-1464): the
minimum player count is the literal `4` in the source. -/
def canStartGame (g : GameSession) : Bool :=
  let connectedPlayers := membersOf g
  if connectedPlayers.length < 4 then false
  else connectedPlayers.all (fun p => p.isReady)

/-! ### Replay store operations -/

/-- `GameService.initializeReplayData` (monitoring-service.ts:1988-2014):
replay entries for the non-spectator players, empty snapshots, zeroed
final stats with `finishTime: null, rank: null`. -/
def initReplayData (g : GameSession) : RaceReplay :=
  { gameId := g.id
    textLength := g.textLength
    startTime := 0
    endTime := none
    players := (g.players.filter (fun p => !p.isSpectator)).map (fun p =>
      { id := p.id, name := p.name, color := p.color,
        progressSnapshots := [],
        finalStats := { wpm := 0, accuracy := 0, finishTime := none, rank := none } }) }

/-- The admission guard and append of `GameService.recordProgressSnapshot`
(monitoring-service.ts:2035-2046), applied to one player's replay. -/
def admitSnapshot (interval : ℚ) (snap : ProgressSnapshot) (pr : PlayerReplay) :
    PlayerReplay :=
  match pr.progressSnapshots.getLast? with
  | none => { pr with progressSnapshots := pr.progressSnapshots ++ [snap] }
  | some lastSnapshot =>
      if snap.timestamp - lastSnapshot.timestamp < interval ∧
          jsAbs (snap.position - lastSnapshot.position) < 5 then pr
      else { pr with progressSnapshots := pr.progressSnapshots ++ [snap] }

/-- `GameService.recordProgressSnapshot` (monitoring-service.ts:2020-2047):
a missing replay or a missing player entry is a silent no-op. -/
def recordProgressSnapshot (replay : Option RaceReplay) (pid : String)
    (interval : ℚ) (snap : ProgressSnapshot) : Option RaceReplay :=
  replay.map (fun r =>
    { r with players := updateFirstBy (fun pr => pr.id == pid) (admitSnapshot interval snap) r.players })

/-- `GameService.updatePlayerFinalStats` (monitoring-service.ts:2053-2074):
overwrites `finalStats` of the player's replay entry; silent no-op when the
replay or the entry is missing. -/
def updatePlayerFinalStats (replay : Option RaceReplay) (pid : String)
    (stats : FinalStats) : Option RaceReplay :=
  replay.map (fun r =>
    { r with players := updateFirstBy (fun pr => pr.id == pid) (fun pr => { pr with finalStats := stats }) r.players })

/-- The snapshots currently stored for a player, as a view on the state. -/
def snapshotsOf (replay : Option RaceReplay) (pid : String) :
    Option (List ProgressSnapshot) :=
  replay.bind (fun r => (r.players.find? (fun pr => pr.id == pid)).map
    (fun pr => pr.progressSnapshots))

/-- The final stats currently stored for a player, as a view on the state. -/
def finalStatsOf (replay : Option RaceReplay) (pid : String) :
    Option FinalStats :=
  replay.bind (fun r => (r.players.find? (fun pr => pr.id == pid)).map
    (fun pr => pr.finalStats))

/-! ### Engine operations -/

/-- The snapshot `updatePlayerProgress` composes (monitoring-service.ts:
1596-1606): `position = min(currentIndex / text.length * 100, 100)`. -/
def composedSnapshot (now : ℚ) (g : GameSession) (currentIndex wpm accuracy : ℚ) :
    ProgressSnapshot :=
  { timestamp := now
    position := jsMin (currentIndex / (g.textLength : ℚ) * 100) 100
    currentIndex := currentIndex
    wpm := wpm
    accuracy := accuracy }

/-- `GameService.updatePlayerProgress` (monitoring-service.ts:1569-1642).
`none` models the throws (game not racing, player not found), which in the
source happen before any mutation.  Spectators return silently with nothing
changed.  Otherwise the player's fields are set, the snapshot is offered to
the replay, and if the new position reached 100 with no `finishTime` yet the
player is finished: `finishTime = now`, rank computed on the updated game,
final stats recorded. -/
def updatePlayerProgress (now interval : ℚ) (g : GameSession)
    (replay : Option RaceReplay) (pid : String)
    (currentIndex wpm accuracy : ℚ) : Option (GameSession × Option RaceReplay) :=
  if g.state ≠ GameState.RACING then none
  else match findPlayer g pid with
  | none => none
  | some player =>
    if player.isSpectator then some (g, replay)
    else
      let snap := composedSnapshot now g currentIndex wpm accuracy
      let p1 : Player :=
        { player with currentIndex := currentIndex, wpm := wpm, accuracy := accuracy, position := snap.position }
      let replay1 := recordProgressSnapshot replay pid interval snap
      if 100 ≤ p1.position ∧ p1.finishTime = none then
        let p2 := { p1 with finishTime := some now }
        let g2 := { g with players := updateFirstBy (fun q => q.id == pid) (fun _ => p2) g.players }
        let replay2 := updatePlayerFinalStats replay1 pid
          { wpm := wpm, accuracy := accuracy, finishTime := some now,
            rank := some ((getPlayerRank g2 pid : Int) : ℚ) }
        some (g2, replay2)
      else
        some ({ g with players := updateFirstBy (fun q => q.id == pid) (fun _ => p1) g.players },
          replay1)

/-- The `!player.finishTime && player.isConnected && !player.isSpectator`
finalization loop of `endRace` (monitoring-service.ts:1756-1767).  The
source mutates `game.players` in place while iterating, and computes each
rank on the game as mutated so far, so the loop carries the processed
prefix. -/
def finalizeUnfinished (now : ℚ) (done rest : List Player)
    (replay : Option RaceReplay) : List Player × Option RaceReplay :=
  match rest with
  | [] => (done, replay)
  | p :: rest' =>
    if jsTruthy p.finishTime = none ∧ p.isConnected = true ∧ p.isSpectator = false then
      let p' := { p with finishTime := some now }
      let replay' := updatePlayerFinalStats replay p.id
        { wpm := p.wpm, accuracy := p.accuracy, finishTime := some now,
          rank := some ((rankOfList (done ++ p' :: rest') p.id : Int) : ℚ) }
      finalizeUnfinished now (done ++ [p']) rest' replay'
    else finalizeUnfinished now (done ++ [p]) rest' replay

/-- `GameService.endRace` (monitoring-service.ts:1721-1828).  Returns the
session, the replay, the events emitted and the timers armed.  Guard: a
no-op for any state other than Racing.  Otherwise: Finished, `endTime =
now`, replay `endTime` stamped, summary statistics computed on the
pre-finalization players (the source computes them before the loop),
unfinished connected non-spectators finalized, rankings built with the
`endRace` comparator, `game_finished` emitted and cleanup scheduled.
`finishRate` divides by the connected count; `0/0` (`NaN` in JS, only hit
when nobody is connected) is modelled as `0`. -/
def endRace (now : ℚ) (g : GameSession) (replay : Option RaceReplay) :
    GameSession × Option RaceReplay × List ServerEvent × List TimerReq :=
  if g.state ≠ GameState.RACING then (g, replay, [], [])
  else
    let g1 := { g with state := GameState.FINISHED, endTime := some now }
    let replay1 := replay.map (fun r => { r with endTime := some now })
    let activePlayers := membersOf g1
    let finishedPlayers := activePlayers.filter (fun p => p.finishTime.isSome)
    let finishRate := (finishedPlayers.length : ℚ) / (activePlayers.length : ℚ)
    let avgWpm :=
      if 0 < finishedPlayers.length then
        (finishedPlayers.map (fun p => p.wpm)).sum / (finishedPlayers.length : ℚ)
      else 0
    let avgAccuracy :=
      if 0 < finishedPlayers.length then
        (finishedPlayers.map (fun p => p.accuracy)).sum / (finishedPlayers.length : ℚ)
      else 0
    let fin := finalizeUnfinished now [] g1.players replay1
    let replay2 := fin.2
    let g2 := { g1 with players := fin.1 }
    let summary : RaceSummary :=
      { gameId := g.id
        totalTime := now - jsOr g.startTime now
        rankings := endRankList g2.players
        avgWpm := avgWpm
        avgAccuracy := avgAccuracy
        finishRate := finishRate
        replayAvailable := true }
    (g2, replay2, [ServerEvent.gameFinished g.id summary], [TimerReq.cleanupAfterDelay])

/-- `GameService.playerFinished` (monitoring-service.ts:1645-1718).
Returns `(allFinished, session, replay, events, timers)` inside `some`;
`none` models the throws.  A spectator, or a player already at position 100
with a non-null `finishTime`, returns `false` with nothing changed.
Otherwise position is forced to 100, stats and `finishTime` recorded, the
rank computed on the updated game, final stats written, and if every
connected non-spectator now has a `finishTime`, `endRace` runs and the call
returns `true`. -/
def playerFinished (now : ℚ) (g : GameSession) (replay : Option RaceReplay)
    (pid : String) (wpm accuracy finishTime : ℚ) :
    Option (Bool × GameSession × Option RaceReplay × List ServerEvent × List TimerReq) :=
  if g.state ≠ GameState.RACING then none
  else match findPlayer g pid with
  | none => none
  | some player =>
    if player.isSpectator then some (false, g, replay, [], [])
    else if player.position = 100 ∧ player.finishTime ≠ none then
      some (false, g, replay, [], [])
    else
      let p' := { player with position := 100, wpm := wpm, accuracy := accuracy, finishTime := some finishTime }
      let g1 := { g with players := updateFirstBy (fun q => q.id == pid) (fun _ => p') g.players }
      let replay1 := updatePlayerFinalStats replay pid
        { wpm := wpm, accuracy := accuracy, finishTime := some finishTime,
          rank := some ((getPlayerRank g1 pid : Int) : ℚ) }
      let activePlayers := membersOf g1
      let finishedPlayers := activePlayers.filter (fun p => p.finishTime.isSome)
      if finishedPlayers.length = activePlayers.length then
        let r := endRace now g1 replay1
        some (true, r.1, r.2.1, r.2.2.1, r.2.2.2)
      else some (false, g1, replay1, [], [])

/-- `GameService.playerLeft` (monitoring-service.ts:1885-1956).  Returns
`(session, deleted, replay, events, timers)`; `deleted` is whether the
session was removed from the registry (only a Waiting session emptied by
the removal).  In Waiting the player is removed; otherwise marked
disconnected, and if no connected non-spectator remains the race is ended
(Racing) or cleanup is scheduled (other states); if some remain in Racing
and all have finished, the race is ended. -/
def playerLeft (now : ℚ) (g : GameSession) (replay : Option RaceReplay)
    (pid : String) :
    Option (GameSession × Bool × Option RaceReplay × List ServerEvent × List TimerReq) :=
  match g.players.findIdx? (fun p => p.id == pid) with
  | none => none
  | some _ =>
    if g.state = GameState.WAITING then
      let players' := g.players.eraseP (fun p => p.id == pid)
      some ({ g with players := players' }, players'.isEmpty, replay, [], [])
    else
      let players1 := updateFirstBy (fun p => p.id == pid) (fun p => { p with isConnected := false }) g.players
      let g1 := { g with players := players1 }
      let connectedPlayers := membersOf g1
      if connectedPlayers.isEmpty then
        if g1.state = GameState.RACING then
          let r := endRace now g1 replay
          some (r.1, false, r.2.1, r.2.2.1, r.2.2.2)
        else some (g1, false, replay, [], [TimerReq.cleanupAfterDelay])
      else if g1.state = GameState.RACING ∧
          connectedPlayers.all (fun p => p.finishTime.isSome) then
        let r := endRace now g1 replay
        some (r.1, false, r.2.1, r.2.2.1, r.2.2.2)
      else some (g1, false, replay, [], [])

/-- `GameService.startRace` (monitoring-service.ts:1509-1548): Racing,
`startTime = now`, progress reset on non-spectators, replay `startTime`
stamped, `game_started` emitted, the `maxRaceTimeMs` deadline armed.  The
source performs no state check here; the countdown ticker is its only
caller. -/
def startRace (now : ℚ) (g : GameSession) (replay : Option RaceReplay) :
    GameSession × Option RaceReplay × List ServerEvent × List TimerReq :=
  let resetPlayers := g.players.map (fun p =>
    if p.isSpectator then p
    else { p with position := 0, currentIndex := 0, wpm := 0, accuracy := 100 })
  let g1 := { g with state := GameState.RACING, startTime := some now, players := resetPlayers }
  let replay1 := replay.map (fun r => { r with startTime := now })
  (g1, replay1, [ServerEvent.gameStarted g.id now], [TimerReq.raceDeadline])

/-- `GameService.startCountdown` (monitoring-service.ts:1467-1506) up to
arming the 1 Hz ticker: from Waiting only, sets Countdown and the countdown
value, and replaces the session's replay with a fresh one. -/
def startCountdown (countdownSeconds : Int) (g : GameSession) :
    Option (GameSession × Option RaceReplay) :=
  if g.state ≠ GameState.WAITING then none
  else
    let g1 := { g with state := GameState.COUNTDOWN, countdown := some countdownSeconds }
    some (g1, some (initReplayData g1))

/-- One tick of the countdown interval (monitoring-service.ts:1488-1505):
decrement, emit `game_countdown`, and at zero clear the interval and start
the race.  Nothing in the source cancels this interval when players leave;
it only stops itself at zero. -/
def countdownTick (now : ℚ) (g : GameSession) (replay : Option RaceReplay) :
    GameSession × Option RaceReplay × List ServerEvent × List TimerReq :=
  let g1 := { g with countdown := g.countdown.map (fun c => c - 1) }
  let ev := ServerEvent.gameCountdown g.id (g1.countdown.getD 0)
  if g1.countdown = some 0 then
    let r := startRace now g1 replay
    (r.1, r.2.1, ev :: r.2.2.1, r.2.2.2)
  else (g1, replay, [ev], [])

/-- `GameService.terminateIdleGames` (monitoring-service.ts:1074-1100):
deletes the Finished sessions plus the Waiting sessions with at most one
connected player (spectators included in this count) whose
`now - (startTime || now)` exceeds five minutes; returns the surviving
sessions and the count terminated. -/
def terminateIdleGames (now : ℚ) (games : List GameSession) :
    List GameSession × Nat :=
  let doomed := fun (g : GameSession) =>
    g.state = GameState.FINISHED ∨
      (g.state = GameState.WAITING ∧
        (g.players.filter (fun p => p.isConnected)).length ≤ 1 ∧
        5 * 60 * 1000 < now - jsOr g.startTime now)
  (games.filter (fun g => ¬ doomed g),
   (games.filter (fun g => doomed g)).length)

/-- The socket handler for `update_progress` (socket setup file lines
119-146): call the engine; on a throw only log; on success broadcast a
`progress_update` unless throttling is on with low update frequency, in
which case only about 20% pass (`Math.random() < 0.2`, the draw is the
`rand` parameter). -/
def handleUpdateProgress (throttling updateFreqLow : Bool) (rand : ℚ)
    (now interval : ℚ) (g : GameSession) (replay : Option RaceReplay)
    (pid : String) (currentIndex wpm accuracy : ℚ) :
    GameSession × Option RaceReplay × List ServerEvent :=
  match updatePlayerProgress now interval g replay pid currentIndex wpm accuracy with
  | none => (g, replay, [])
  | some (g', replay') =>
      if !(throttling && updateFreqLow) || rand < 1/5 then
        (g', replay', [ServerEvent.progressUpdate g.id pid])
      else (g', replay', [])

/-! ### Basic lemmas about the list helpers -/

theorem mem_updateFirstBy {α : Type} {test : α → Bool} {f : α → α} :
    ∀ {l : List α} {p : α}, p ∈ updateFirstBy test f l →
      p ∈ l ∨ ∃ q ∈ l, test q = true ∧ p = f q := by
  intro l
  induction l with
  | nil => intro p h; exact absurd h (by simp [updateFirstBy])
  | cons x xs ih =>
    intro p h
    by_cases hx : test x = true
    · rw [updateFirstBy, if_pos hx] at h
      rcases List.mem_cons.mp h with h1 | h2
      · exact Or.inr ⟨x, List.mem_cons_self x xs, hx, h1⟩
      · exact Or.inl (List.mem_cons_of_mem x h2)
    · rw [updateFirstBy, if_neg hx] at h
      rcases List.mem_cons.mp h with h1 | h2
      · exact Or.inl (h1 ▸ List.mem_cons_self x xs)
      · rcases ih h2 with h3 | ⟨q, hq, ht, he⟩
        · exact Or.inl (List.mem_cons_of_mem x h3)
        · exact Or.inr ⟨q, List.mem_cons_of_mem x hq, ht, he⟩

theorem find?_updateFirstBy {α : Type} {test : α → Bool} {f : α → α}
    {l : List α} {q : α} (hfind : l.find? test = some q)
    (hf : test (f q) = true) :
    (updateFirstBy test f l).find? test = some (f q) := by
  induction l with
  | nil => simp [List.find?] at hfind
  | cons x xs ih =>
    by_cases hx : test x = true
    · rw [List.find?_cons_of_pos xs hx] at hfind
      rw [updateFirstBy, if_pos hx]
      cases hfind
      exact List.find?_cons_of_pos xs hf
    · rw [List.find?_cons_of_neg xs (by simpa using hx)] at hfind
      rw [updateFirstBy, if_neg hx]
      rw [List.find?_cons_of_neg (updateFirstBy test f xs) (by simpa using hx)]
      exact ih hfind

/-! ### Concrete fixtures used by witnesses and counterexamples -/

/-- A freshly created connected racer. -/
def pA : Player :=
  { id := "a", name := "Ada", color := "#FF6B6B", position := 0, wpm := 0,
    accuracy := 100, currentIndex := 0, isReady := true, finishTime := none,
    isConnected := true, isSpectator := false }

/-- A second connected racer. -/
def pB : Player := { pA with id := "b", name := "Bob" }

/-- A spectator who joined the running race. -/
def pSpec : Player :=
  { id := "s", name := "Sam (Spectator)", color := "#AAAAAA", position := 0,
    wpm := 0, accuracy := 0, currentIndex := 0, isReady := true,
    finishTime := none, isConnected := true, isSpectator := true }

/-- A two-racer session in the Racing state. -/
def gRace2 : GameSession :=
  { id := "g", state := GameState.RACING, players := [pA, pB], textLength := 10,
    startTime := some 0, endTime := none, maxPlayers := 4, countdown := none }

/-- The same race with a spectator present. -/
def gRaceSpec : GameSession := { gRace2 with players := [pA, pB, pSpec] }

/-- An empty replay entry for a racer. -/
def prOf (p : Player) : PlayerReplay :=
  { id := p.id, name := p.name, color := p.color, progressSnapshots := [],
    finalStats := { wpm := 0, accuracy := 0, finishTime := none, rank := none } }

/-- The stored replay of `gRace2` right after the countdown. -/
def rrAB : RaceReplay :=
  { gameId := "g", textLength := 10, startTime := 0, endTime := none,
    players := [prOf pA, prOf pB] }

/-! ### Claim C2 -/

/-- Claim C2: `canStartGame` returns true exactly when at least four
connected non-spectator players are present and every one of them is
ready.  The minimum is the literal `4` of the source (the reference
behavior the claim cites); no configuration value feeds it. -/
theorem canStartGame_iff_four_ready (g : GameSession) :
    canStartGame g = true ↔
      4 ≤ (membersOf g).length ∧ ∀ p ∈ membersOf g, p.isReady = true := by
  unfold canStartGame
  by_cases h : (membersOf g).length < 4
  · simp only [if_pos h]
    constructor
    · intro hfalse; exact absurd hfalse (by simp)
    · intro ⟨h4, _⟩; omega
  · simp only [if_neg h, List.all_eq_true]
    constructor
    · intro hall; exact ⟨by omega, hall⟩
    · intro ⟨_, hall⟩; exact hall

/-! ### Claim C10: endRace is a no-op off the Racing state -/

theorem endRace_of_not_racing {now : ℚ} {g : GameSession}
    {replay : Option RaceReplay} (h : g.state ≠ GameState.RACING) :
    endRace now g replay = (g, replay, [], []) := by
  unfold endRace
  rw [if_pos h]

theorem endRace_racing_shape {now : ℚ} {g : GameSession}
    {replay : Option RaceReplay} (h : g.state = GameState.RACING) :
    (endRace now g replay).1.state = GameState.FINISHED ∧
      (endRace now g replay).1.endTime = some now ∧
      ∃ s, (endRace now g replay).2.2.1 = [ServerEvent.gameFinished g.id s] := by
  unfold endRace
  rw [if_neg (by simp [h])]
  exact ⟨rfl, rfl, _, rfl⟩

/-- Claim C10: `endRace` outside the Racing state changes nothing and
emits nothing; from Racing it reaches Finished with `endTime = now`,
emits exactly one `game_finished`, and any further `endRace` call — from
the race deadline timer, an all-finished `playerFinished` or an
all-disconnected `playerLeft` — is a complete no-op, so the transition
happens at most once and `endTime` is never overwritten. -/
theorem endRace_once :
    (∀ (now : ℚ) (g : GameSession) (replay : Option RaceReplay),
        g.state ≠ GameState.RACING → endRace now g replay = (g, replay, [], [])) ∧
    (∀ (now now2 : ℚ) (g : GameSession) (replay : Option RaceReplay),
        g.state = GameState.RACING →
          (endRace now g replay).1.state = GameState.FINISHED ∧
          (endRace now g replay).1.endTime = some now ∧
          (∃ s, (endRace now g replay).2.2.1 = [ServerEvent.gameFinished g.id s]) ∧
          endRace now2 (endRace now g replay).1 (endRace now g replay).2.1 =
            ((endRace now g replay).1, (endRace now g replay).2.1, [], [])) := by
  refine ⟨fun now g replay h => endRace_of_not_racing h, fun now now2 g replay h => ?_⟩
  obtain ⟨hstate, hend, hev⟩ := @endRace_racing_shape now g replay h
  refine ⟨hstate, hend, hev, endRace_of_not_racing ?_⟩
  rw [hstate]
  intro hcontra
  cases hcontra

/-! ### Claim C8: terminateIdleGames -/

/-- A Finished session with nobody left (cleanup candidate). -/
def gFinished : GameSession :=
  { id := "fin", state := GameState.FINISHED, players := [], textLength := 10,
    startTime := some 1000, endTime := some 2000, maxPlayers := 4, countdown := none }

/-- A Waiting session with no connected player and `startTime = null` —
`startTime` is only ever set on entry to Racing, so every Waiting session
looks like this, however old it is. -/
def gStaleWaiting : GameSession :=
  { id := "stale", state := GameState.WAITING, players := [], textLength := 10,
    startTime := none, endTime := none, maxPlayers := 4, countdown := none }

/-- Claim C8: the idle-session sweep.  The source computes the age of a
Waiting session as `now - (startTime || now)`, but a Waiting session has
never reached Racing, so its `startTime` is `null` and the computed age is
`0 > 5min = false`: no Waiting session is ever deleted, no matter how old —
`terminateIdleGames` deletes exactly the Finished sessions.  The first
conjunct runs the sweep at an arbitrarily late `now` over a Finished and an
idle Waiting session: only the Finished one is deleted.  The second
conjunct shows every Waiting session with `startTime = null` survives. -/
theorem terminateIdleGames_keeps_waiting :
    (∀ now : ℚ, terminateIdleGames now [gFinished, gStaleWaiting] = ([gStaleWaiting], 1)) ∧
    (∀ (now : ℚ) (games : List GameSession) (g : GameSession),
        g ∈ games → g.state = GameState.WAITING → g.startTime = none →
        g ∈ (terminateIdleGames now games).1) := by
  constructor
  · intro now
    unfold terminateIdleGames
    simp [gFinished, gStaleWaiting, jsOr, jsTruthy]
  · intro now games g hmem hstate hstart
    unfold terminateIdleGames
    simp only [List.mem_filter, decide_eq_true_eq]
    refine ⟨hmem, ?_⟩
    intro hdoom
    rcases hdoom with hfin | ⟨_, _, hage⟩
    · rw [hstate] at hfin; cases hfin
    · rw [hstart] at hage
      simp [jsOr, jsTruthy] at hage
      linarith

/-! ### Replay-view lemmas -/

theorem find?_map_updateFirstBy {α β : Type} (test₁ test₂ : α → Bool) (f : α → α)
    (proj : α → β) (htest : ∀ x, test₂ (f x) = test₂ x)
    (hproj : ∀ x, proj (f x) = proj x) :
    ∀ l : List α,
      ((updateFirstBy test₁ f l).find? test₂).map proj = (l.find? test₂).map proj := by
  intro l
  induction l with
  | nil => rfl
  | cons x xs ih =>
    by_cases hx : test₁ x = true
    · rw [updateFirstBy, if_pos hx]
      by_cases hx2 : test₂ x = true
      · rw [List.find?_cons_of_pos xs ((htest x).trans hx2), List.find?_cons_of_pos xs hx2]
        simp [hproj]
      · rw [List.find?_cons_of_neg xs (by simp only [htest]; simpa using hx2),
          List.find?_cons_of_neg xs (by simpa using hx2)]
    · rw [updateFirstBy, if_neg hx]
      by_cases hx2 : test₂ x = true
      · rw [List.find?_cons_of_pos (updateFirstBy test₁ f xs) hx2,
          List.find?_cons_of_pos xs hx2]
      · rw [List.find?_cons_of_neg (updateFirstBy test₁ f xs) (by simpa using hx2),
          List.find?_cons_of_neg xs (by simpa using hx2)]
        exact ih

/-- Writing final stats never touches any player's snapshot list. -/
theorem snapshotsOf_updatePlayerFinalStats (replay : Option RaceReplay)
    (pid pid' : String) (stats : FinalStats) :
    snapshotsOf (updatePlayerFinalStats replay pid stats) pid' =
      snapshotsOf replay pid' := by
  cases replay with
  | none => rfl
  | some rr =>
    unfold snapshotsOf updatePlayerFinalStats
    simp only [Option.map_some', Option.some_bind]
    exact find?_map_updateFirstBy (fun pr => pr.id == pid) (fun pr => pr.id == pid')
      (fun pr => { pr with finalStats := stats }) (fun pr => pr.progressSnapshots)
      (fun x => rfl) (fun x => rfl) rr.players

/-- Recording a snapshot never touches any player's final stats. -/
theorem finalStatsOf_recordProgressSnapshot (replay : Option RaceReplay)
    (pid pid' : String) (interval : ℚ) (snap : ProgressSnapshot) :
    finalStatsOf (recordProgressSnapshot replay pid interval snap) pid' =
      finalStatsOf replay pid' := by
  cases replay with
  | none => rfl
  | some rr =>
    unfold finalStatsOf recordProgressSnapshot
    simp only [Option.map_some', Option.some_bind]
    refine find?_map_updateFirstBy (fun pr => pr.id == pid) (fun pr => pr.id == pid')
      (admitSnapshot interval snap) (fun pr => pr.finalStats)
      (fun x => ?_) (fun x => ?_) rr.players
    · unfold admitSnapshot
      cases x.progressSnapshots.getLast? with
      | none => rfl
      | some s =>
        dsimp only
        split <;> rfl
    · unfold admitSnapshot
      cases x.progressSnapshots.getLast? with
      | none => rfl
      | some s =>
        dsimp only
        split <;> rfl

/-- The spec's snapshot-admission condition, in its own words: the previous
snapshot is absent, or at least the interval has passed since it, or the
position moved by at least 5. -/
def specAdmits (prev : Option ProgressSnapshot) (snap : ProgressSnapshot)
    (interval : ℚ) : Prop :=
  match prev with
  | none => True
  | some prevSnap =>
      interval ≤ snap.timestamp - prevSnap.timestamp ∨
        5 ≤ jsAbs (snap.position - prevSnap.position)

instance (prev : Option ProgressSnapshot) (snap : ProgressSnapshot)
    (interval : ℚ) : Decidable (specAdmits prev snap interval) := by
  unfold specAdmits
  cases prev <;> infer_instance

/-- The source's guard and the spec's condition coincide: `admitSnapshot`
appends exactly when `specAdmits` holds, and leaves the list alone
otherwise. -/
theorem admitSnapshot_eq (interval : ℚ) (snap : ProgressSnapshot)
    (pr : PlayerReplay) :
    (admitSnapshot interval snap pr).progressSnapshots =
      if specAdmits pr.progressSnapshots.getLast? snap interval then
        pr.progressSnapshots ++ [snap]
      else pr.progressSnapshots := by
  unfold admitSnapshot specAdmits
  cases hlast : pr.progressSnapshots.getLast? with
  | none => simp
  | some prevSnap =>
    simp only
    by_cases hskip : snap.timestamp - prevSnap.timestamp < interval ∧
        jsAbs (snap.position - prevSnap.position) < 5
    · rw [if_pos hskip, if_neg]
      push_neg
      exact hskip
    · rw [if_neg hskip, if_pos]
      rcases not_and_or.mp hskip with h | h
      · exact Or.inl (not_lt.mp h)
      · exact Or.inr (not_lt.mp h)

theorem snapshotsOf_recordProgressSnapshot {rr : RaceReplay} {pid : String}
    {pr : PlayerReplay} (hpr : rr.players.find? (fun q => q.id == pid) = some pr)
    (interval : ℚ) (snap : ProgressSnapshot) :
    snapshotsOf (recordProgressSnapshot (some rr) pid interval snap) pid =
      some (if specAdmits pr.progressSnapshots.getLast? snap interval then
        pr.progressSnapshots ++ [snap]
      else pr.progressSnapshots) := by
  unfold snapshotsOf recordProgressSnapshot
  simp only [Option.map_some', Option.some_bind]
  have hid : ((fun q => q.id == pid) (admitSnapshot interval snap pr)) = true := by
    show ((admitSnapshot interval snap pr).id == pid) = true
    have hsame : (admitSnapshot interval snap pr).id = pr.id := by
      unfold admitSnapshot
      cases pr.progressSnapshots.getLast? with
      | none => rfl
      | some s =>
        dsimp only
        split <;> rfl
    rw [hsame]
    have := List.find?_some hpr
    simpa using this
  rw [find?_updateFirstBy hpr hid]
  rw [Option.map_some']
  rw [admitSnapshot_eq]

/-- Core computation shared by C6 and C7: for a connected-path (non-spectator)
player of a Racing session, `updatePlayerProgress` leaves the player's
snapshot list extended by the composed snapshot exactly when the admission
condition holds, whether or not the finish branch fires. -/
theorem snapshots_after_update {now interval : ℚ} {g : GameSession}
    {rr : RaceReplay} {pid : String} {ci w a : ℚ} {p : Player}
    {pr : PlayerReplay} {res : GameSession × Option RaceReplay}
    (hstate : g.state = GameState.RACING)
    (hfind : findPlayer g pid = some p) (hspec : p.isSpectator = false)
    (hpr : rr.players.find? (fun q => q.id == pid) = some pr)
    (hres : updatePlayerProgress now interval g (some rr) pid ci w a = some res) :
    snapshotsOf res.2 pid =
      some (if specAdmits pr.progressSnapshots.getLast?
          (composedSnapshot now g ci w a) interval then
        pr.progressSnapshots ++ [composedSnapshot now g ci w a]
      else pr.progressSnapshots) := by
  unfold updatePlayerProgress at hres
  rw [if_neg (by simp [hstate]), hfind] at hres
  dsimp only at hres
  rw [if_neg (by simp [hspec])] at hres
  split at hres
  · cases hres
    dsimp only
    rw [snapshotsOf_updatePlayerFinalStats]
    exact snapshotsOf_recordProgressSnapshot hpr _ _
  · cases hres
    dsimp only
    exact snapshotsOf_recordProgressSnapshot hpr _ _

/-! ### Claim C6 -/

/-- Claim C6: during Racing the snapshot composed by `updatePlayerProgress`
for a non-spectator player is appended to that player's replay exactly when
the player has no previous snapshot, or at least
`replaySnapshotIntervalMs` passed since the previous snapshot's timestamp,
or the absolute position difference from it is at least 5 (`specAdmits`);
otherwise the snapshot list is untouched. -/
theorem snapshot_admission_iff (now interval ci w a : ℚ) (g : GameSession)
    (rr : RaceReplay) (pid : String) (p : Player) (pr : PlayerReplay)
    (res : GameSession × Option RaceReplay)
    (hstate : g.state = GameState.RACING)
    (hfind : findPlayer g pid = some p) (hspec : p.isSpectator = false)
    (hpr : rr.players.find? (fun q => q.id == pid) = some pr)
    (hres : updatePlayerProgress now interval g (some rr) pid ci w a = some res) :
    (specAdmits pr.progressSnapshots.getLast?
        (composedSnapshot now g ci w a) interval →
      snapshotsOf res.2 pid =
        some (pr.progressSnapshots ++ [composedSnapshot now g ci w a])) ∧
    (¬ specAdmits pr.progressSnapshots.getLast?
        (composedSnapshot now g ci w a) interval →
      snapshotsOf res.2 pid = some pr.progressSnapshots) := by
  have key := snapshots_after_update hstate hfind hspec hpr hres
  constructor
  · intro hadm
    rw [key, if_pos hadm]
  · intro hadm
    rw [key, if_neg hadm]

/-- The state `updatePlayerProgress 100 100 gRace2 (some rrAB) "a" 5 40 90`
produces (evaluated, for the C6 witness). -/
def c6res : GameSession × Option RaceReplay :=
  (updatePlayerProgress 100 100 gRace2 (some rrAB) "a" 5 40 90).getD (gRace2, none)

/-- Witness for C6 at a concrete input: Ada's first snapshot (no previous
one, so admission holds) lands in the replay. -/
theorem snapshot_admission_iff_witness :
    snapshotsOf c6res.2 "a" = some [composedSnapshot 100 gRace2 5 40 90] :=
  (snapshot_admission_iff 100 100 5 40 90 gRace2 rrAB "a" pA (prOf pA) c6res
    rfl rfl rfl rfl (by decide!)).1 trivial

/-! ### Claim C5 -/

/-- Claim C5 (amended): for a spectator of a Racing session the engine call
is a complete no-op — the spectator's progress fields stay untouched and no
snapshot is recorded — but, contrary to the claim, the socket handler still
broadcasts a `progress_update` to the room under the normal throttling
rule, because the engine reports no difference between an applied and an
ignored update. -/
theorem spectator_update_engine_silent (throttling updateFreqLow : Bool)
    (rand now interval ci w a : ℚ) (g : GameSession)
    (replay : Option RaceReplay) (pid : String) (p : Player)
    (hstate : g.state = GameState.RACING)
    (hfind : findPlayer g pid = some p) (hspec : p.isSpectator = true) :
    updatePlayerProgress now interval g replay pid ci w a = some (g, replay) ∧
    handleUpdateProgress throttling updateFreqLow rand now interval g replay
        pid ci w a =
      (g, replay,
        if !(throttling && updateFreqLow) || rand < 1/5 then
          [ServerEvent.progressUpdate g.id pid]
        else []) := by
  have hupd : updatePlayerProgress now interval g replay pid ci w a = some (g, replay) := by
    unfold updatePlayerProgress
    rw [if_neg (by simp [hstate]), hfind]
    dsimp only
    rw [if_pos (by simp [hspec])]
  refine ⟨hupd, ?_⟩
  unfold handleUpdateProgress
  rw [hupd]
  dsimp only
  split <;> rfl

/-- Witness for C5: Sam the spectator, race running, no throttling. -/
theorem spectator_update_engine_silent_witness :
    updatePlayerProgress 50 100 gRaceSpec none "s" 3 40 90 = some (gRaceSpec, none) ∧
    handleUpdateProgress false false 0 50 100 gRaceSpec none "s" 3 40 90 =
      (gRaceSpec, none,
        if !(false && false) || (0:ℚ) < 1/5 then
          [ServerEvent.progressUpdate gRaceSpec.id "s"]
        else []) :=
  spectator_update_engine_silent false false 0 50 100 3 40 90 gRaceSpec none
    "s" pSpec rfl (by decide!) rfl

/-- Counterexample for C5 as frozen: the claim says no `progress_update`
broadcast is sent to the room for a spectator's `update_progress`, but with
throttling off the handler emits one. -/
theorem spectator_update_still_broadcasts :
    handleUpdateProgress false false 0 50 100 gRaceSpec none "s" 3 40 90 =
      (gRaceSpec, none, [ServerEvent.progressUpdate "g" "s"]) := by
  decide!

/-! ### Claim C7 -/

/-- A list none of whose elements passes the test is left untouched. -/
theorem updateFirstBy_of_find?_none {α : Type} {test : α → Bool} {f : α → α} :
    ∀ {l : List α}, l.find? test = none → updateFirstBy test f l = l := by
  intro l
  induction l with
  | nil => intro _; rfl
  | cons x xs ih =>
    intro h
    rw [List.find?_eq_none] at h
    rw [updateFirstBy, if_neg (by simpa using h x (List.mem_cons_self x xs)),
      ih (List.find?_eq_none.mpr fun a ha => h a (List.mem_cons_of_mem x ha))]

/-- `updatePlayerFinalStats` replaces the target's final stats outright
(when the replay and the entry exist). -/
theorem finalStatsOf_updatePlayerFinalStats_self (replay : Option RaceReplay)
    (pid : String) (stats : FinalStats) :
    finalStatsOf (updatePlayerFinalStats replay pid stats) pid =
      (finalStatsOf replay pid).map (fun _ => stats) := by
  cases replay with
  | none => rfl
  | some rr =>
    unfold finalStatsOf updatePlayerFinalStats
    simp only [Option.map_some', Option.some_bind]
    cases hf : rr.players.find? (fun pr => pr.id == pid) with
    | none =>
      rw [updateFirstBy_of_find?_none hf, hf]
      rfl
    | some pr =>
      have hid : ((fun q => q.id == pid)
          ({ pr with finalStats := stats } : PlayerReplay)) = true := by
        simpa using List.find?_some hf
      rw [find?_updateFirstBy hf hid]
      rfl

/-- A racer who already finished at time 50 with position 100. -/
def pF : Player :=
  { pA with
    id := "f", name := "Fin", position := 100, currentIndex := 10,
    wpm := 60, finishTime := some 50 }

/-- The race of `pF` and `pB`, still Racing because Bob has not finished. -/
def gRaceF : GameSession := { gRace2 with players := [pF, pB] }

/-- The snapshot `pF` recorded when finishing. -/
def snapF : ProgressSnapshot :=
  { timestamp := 50, position := 100, currentIndex := 10, wpm := 60,
    accuracy := 100 }

/-- `pF`'s replay entry after the finish. -/
def prF : PlayerReplay :=
  { prOf pF with
    progressSnapshots := [snapF],
    finalStats := { wpm := 60, accuracy := 100, finishTime := some 50, rank := some 1 } }

/-- The stored replay for `gRaceF`. -/
def rrF : RaceReplay := { rrAB with players := [prF, prOf pB] }

/-- The state after the finished `pF` sends one more `update_progress`
that drops the reported position to 0. -/
def c7step1 : GameSession × Option RaceReplay :=
  (updatePlayerProgress 100 100 gRaceF (some rrF) "f" 0 10 90).getD (gRaceF, none)

/-- The state after a duplicate `player_finished` from `pF` lands on
`c7step1` (its position is now 0, so the already-finished guard misses). -/
def c7step2 : Bool × GameSession × Option RaceReplay × List ServerEvent × List TimerReq :=
  (playerFinished 200 c7step1.1 c7step1.2 "f" 42 77 150).getD
    (false, c7step1.1, c7step1.2, [], [])

/-- A racer who finished with a client-reported `finishTime` of `0`. -/
def pZ : Player :=
  { pA with
    id := "z", position := 100, currentIndex := 10, wpm := 80,
    finishTime := some 0 }

/-- The race of `pZ` and the unfinished `pB`, still Racing. -/
def gRaceZ : GameSession := { gRace2 with players := [pZ, pB] }

/-- `pZ`'s replay entry, final stats recorded at the finish. -/
def prZ : PlayerReplay :=
  { prOf pZ with
    finalStats := { wpm := 80, accuracy := 100, finishTime := some 0, rank := some 1 } }

/-- The stored replay for `gRaceZ`. -/
def rrZ : RaceReplay := { rrAB with players := [prZ, prOf pB] }

/-- Claim C7 (amended): once a player has finished, `updatePlayerProgress`
never rewrites that player's replay `finalStats` (its finish branch
requires a null `finishTime`), and a repeated `playerFinished` while the
player still has `position = 100` and a non-null `finishTime` changes
neither the session nor the replay.  The rest of the claim fails: later
`updatePlayerProgress` calls are NOT ignored by the replay — they keep
appending snapshots under the normal admission rule; a second
`playerFinished` whose target's position is no longer 100 (an intervening
`updateProgress` can lower it) slips past the already-finished guard and
overwrites `finalStats` with the freshly reported stats; and `endRace`'s
`!player.finishTime` test treats a recorded `finishTime` of `0` as
unfinished, re-finalizing that player and overwriting their `finalStats`
(exhibited on `gRaceZ`/`rrZ`). -/
theorem replay_after_finish :
    (∀ (now interval ci w a : ℚ) (g : GameSession) (replay : Option RaceReplay)
        (pid : String) (p : Player) (res : GameSession × Option RaceReplay),
      g.state = GameState.RACING → findPlayer g pid = some p →
      p.isSpectator = false → p.finishTime ≠ none →
      updatePlayerProgress now interval g replay pid ci w a = some res →
      finalStatsOf res.2 pid = finalStatsOf replay pid) ∧
    (∀ (now w a ft : ℚ) (g : GameSession) (replay : Option RaceReplay)
        (pid : String) (p : Player),
      g.state = GameState.RACING → findPlayer g pid = some p →
      p.position = 100 → p.finishTime ≠ none →
      playerFinished now g replay pid w a ft = some (false, g, replay, [], [])) ∧
    (∀ (now interval ci w a : ℚ) (g : GameSession) (rr : RaceReplay)
        (pid : String) (p : Player) (pr : PlayerReplay)
        (res : GameSession × Option RaceReplay),
      g.state = GameState.RACING → findPlayer g pid = some p →
      p.isSpectator = false → p.finishTime ≠ none →
      rr.players.find? (fun q => q.id == pid) = some pr →
      updatePlayerProgress now interval g (some rr) pid ci w a = some res →
      specAdmits pr.progressSnapshots.getLast?
          (composedSnapshot now g ci w a) interval →
      snapshotsOf res.2 pid =
        some (pr.progressSnapshots ++ [composedSnapshot now g ci w a])) ∧
    (∀ (now w a ft : ℚ) (g : GameSession) (replay : Option RaceReplay)
        (pid : String) (p : Player)
        (res : Bool × GameSession × Option RaceReplay × List ServerEvent × List TimerReq),
      g.state = GameState.RACING → findPlayer g pid = some p →
      p.isSpectator = false → p.position ≠ 100 →
      playerFinished now g replay pid w a ft = some res → res.1 = false →
      (finalStatsOf res.2.2.1 pid).map (fun st => (st.wpm, st.accuracy, st.finishTime)) =
        (finalStatsOf replay pid).map (fun _ => (w, a, some ft))) ∧
    (finalStatsOf (some rrZ) "z" =
        some { wpm := 80, accuracy := 100, finishTime := some 0, rank := some 1 } ∧
      finalStatsOf (endRace 500 gRaceZ (some rrZ)).2.1 "z" =
        some { wpm := 80, accuracy := 100, finishTime := some 500, rank := some 1 }) := by
  refine ⟨?_, ?_, ?_, ?_, by decide!⟩
  · intro now interval ci w a g replay pid p res hstate hfind hspec hfin hres
    unfold updatePlayerProgress at hres
    rw [if_neg (by simp [hstate]), hfind] at hres
    dsimp only at hres
    rw [if_neg (by simp [hspec])] at hres
    rw [if_neg (by intro hc; exact hfin hc.2)] at hres
    cases hres
    exact finalStatsOf_recordProgressSnapshot replay pid pid interval _
  · intro now w a ft g replay pid p hstate hfind hpos hfin
    unfold playerFinished
    rw [if_neg (by simp [hstate]), hfind]
    dsimp only
    by_cases hspec : p.isSpectator = true
    · rw [if_pos hspec]
    · rw [if_neg hspec, if_pos ⟨hpos, hfin⟩]
  · intro now interval ci w a g rr pid p pr res hstate hfind hspec hfin hpr hres hadm
    rw [snapshots_after_update hstate hfind hspec hpr hres, if_pos hadm]
  · intro now w a ft g replay pid p res hstate hfind hspec hpos hres hfalse
    unfold playerFinished at hres
    rw [if_neg (by simp [hstate]), hfind] at hres
    dsimp only at hres
    rw [if_neg (by simp [hspec])] at hres
    rw [if_neg (fun hc => hpos hc.1)] at hres
    split at hres
    · cases hres
      cases hfalse
    · cases hres
      dsimp only
      rw [finalStatsOf_updatePlayerFinalStats_self]
      cases finalStatsOf replay pid <;> rfl

/-- Counterexample for C7 as frozen, violating both of its protections.
After `pF` finished (position 100, `finishTime = 50`, final stats
recorded): (1) a further `update_progress` still appends a snapshot to the
replay (the position moved by 100 ≥ 5) while leaving `finalStats` alone;
(2) because that update dropped the position to 0, a duplicate
`player_finished` then returns `false`-for-all-finished yet OVERWRITES the
recorded `finalStats` with the new wpm/accuracy/finishTime; and (3) for
`pZ`, who finished with a reported `finishTime` of `0`, `endRace`
re-finalizes and overwrites `finalStats` (its `!finishTime` guard reads
the falsy `0` as unfinished). -/
theorem replay_records_after_finish :
    snapshotsOf c7step1.2 "f" =
      some [snapF,
        { timestamp := 100, position := 0, currentIndex := 0, wpm := 10, accuracy := 90 }] ∧
    finalStatsOf c7step1.2 "f" =
      some { wpm := 60, accuracy := 100, finishTime := some 50, rank := some 1 } ∧
    c7step2.1 = false ∧
    finalStatsOf c7step2.2.2.1 "f" =
      some { wpm := 42, accuracy := 77, finishTime := some 150, rank := some 1 } ∧
    finalStatsOf (some rrZ) "z" =
      some { wpm := 80, accuracy := 100, finishTime := some 0, rank := some 1 } ∧
    finalStatsOf (endRace 500 gRaceZ (some rrZ)).2.1 "z" =
      some { wpm := 80, accuracy := 100, finishTime := some 500, rank := some 1 } := by
  decide!

/-! ### Claim C3 -/

/-- Claim C3: in a session still Racing, a second `playerFinished` for the
same player after a first call that returned `false` returns `false` again
and changes nothing: session, replay, events and timers are exactly those
the first call left behind. -/
theorem playerFinished_second_call_noop
    (now now2 w1 a1 f1 w2 a2 f2 : ℚ) (g : GameSession)
    (replay : Option RaceReplay) (pid : String)
    (res : Bool × GameSession × Option RaceReplay × List ServerEvent × List TimerReq)
    (hres : playerFinished now g replay pid w1 a1 f1 = some res)
    (hfalse : res.1 = false) :
    playerFinished now2 res.2.1 res.2.2.1 pid w2 a2 f2 =
      some (false, res.2.1, res.2.2.1, [], []) := by
  unfold playerFinished at hres
  by_cases hstate : g.state = GameState.RACING
  swap
  · rw [if_pos hstate] at hres
    cases hres
  rw [if_neg (by simp [hstate])] at hres
  cases hfp : findPlayer g pid with
  | none => rw [hfp] at hres; cases hres
  | some player =>
    rw [hfp] at hres
    dsimp only at hres
    have hbeq : (player.id == pid) = true := by
      have := List.find?_some hfp
      simpa using this
    by_cases hsp : player.isSpectator = true
    · rw [if_pos hsp] at hres
      cases hres
      unfold playerFinished
      rw [if_neg (by simp [hstate]), hfp]
      dsimp only
      rw [if_pos hsp]
    · rw [if_neg hsp] at hres
      by_cases hdone : player.position = 100 ∧ player.finishTime ≠ none
      · rw [if_pos hdone] at hres
        cases hres
        unfold playerFinished
        rw [if_neg (by simp [hstate]), hfp]
        dsimp only
        rw [if_neg hsp, if_pos hdone]
      · rw [if_neg hdone] at hres
        split at hres
        · cases hres
          cases hfalse
        · cases hres
          unfold playerFinished
          dsimp only
          rw [if_neg (by simp [hstate])]
          have hfp2 : findPlayer
              { g with
                players := updateFirstBy (fun q => q.id == pid)
                    (fun _ => { player with
                      position := 100, wpm := w1, accuracy := a1,
                      finishTime := some f1 })
                    g.players }
              pid =
              some { player with
                position := 100, wpm := w1, accuracy := a1, finishTime := some f1 } := by
            show (updateFirstBy (fun q => q.id == pid) _ g.players).find?
                (fun q => q.id == pid) = _
            exact find?_updateFirstBy hfp (by simpa using hbeq)
          rw [hfp2]
          dsimp only
          rw [if_neg (by simpa using hsp), if_pos ⟨rfl, by simp⟩]

/-- The session after Ada's authoritative finish in `gRace2` (Bob is still
racing, so the first call returned `false`). -/
def g1W : GameSession :=
  { gRace2 with players :=
    [{ pA with position := 100, wpm := 55, accuracy := 95, finishTime := some 5 }, pB] }

/-- Witness for C3: Ada finishes once, then her duplicate `player_finished`
returns `false` and leaves everything as it was. -/
theorem playerFinished_second_call_noop_witness :
    playerFinished 7 g1W none "a" 60 90 9 = some (false, g1W, none, [], []) :=
  playerFinished_second_call_noop 0 7 55 95 5 60 90 9 gRace2 none "a"
    (false, g1W, none, [], []) (by decide!) rfl

/-! ### Claim C1 -/

/-- The part of the claimed player invariant the code maintains:
`position ≤ 100`, and `position = 100` implies a non-null `finishTime`. -/
def playerSafe (p : Player) : Prop :=
  p.position ≤ 100 ∧ (p.position = 100 → p.finishTime ≠ none)

/-- `playerSafe` for every player of the session. -/
def sessionSafe (g : GameSession) : Prop := ∀ p ∈ g.players, playerSafe p

/-- The claim's full invariant, with the biconditional
`position = 100 ↔ finishTime ≠ null`. -/
def positionFinishIff (g : GameSession) : Prop :=
  ∀ p ∈ g.players, p.position ≤ 100 ∧ (p.position = 100 ↔ p.finishTime ≠ none)

theorem jsMin_le_right (a b : ℚ) : jsMin a b ≤ b := by
  unfold jsMin
  split
  · assumption
  · exact le_refl b

theorem finalizeUnfinished_safe (now : ℚ) :
    ∀ (rest done : List Player) (replay : Option RaceReplay),
      (∀ p ∈ done, playerSafe p) → (∀ p ∈ rest, playerSafe p) →
      ∀ q ∈ (finalizeUnfinished now done rest replay).1, playerSafe q := by
  intro rest
  induction rest with
  | nil => intro done replay hdone _ q hq; exact hdone q hq
  | cons p rest' ih =>
    intro done replay hdone hrest q hq
    unfold finalizeUnfinished at hq
    split at hq
    · refine ih _ _ ?_ (fun x hx => hrest x (List.mem_cons_of_mem p hx)) q hq
      intro x hx
      rcases List.mem_append.mp hx with hx | hx
      · exact hdone x hx
      · have hp := hrest p (List.mem_cons_self p rest')
        rcases List.mem_singleton.mp hx with rfl
        exact ⟨hp.1, fun _ => by simp⟩
    · refine ih _ _ ?_ (fun x hx => hrest x (List.mem_cons_of_mem p hx)) q hq
      intro x hx
      rcases List.mem_append.mp hx with hx | hx
      · exact hdone x hx
      · rcases List.mem_singleton.mp hx with rfl
        exact hrest x (List.mem_cons_self x rest')

theorem endRace_safe {now : ℚ} {g : GameSession} {replay : Option RaceReplay}
    (hsafe : sessionSafe g) : sessionSafe (endRace now g replay).1 := by
  unfold endRace
  split
  · exact hsafe
  · intro q hq
    exact finalizeUnfinished_safe now g.players [] _ (by simp) hsafe q hq

/-- Claim C1 (amended): every engine operation preserves `position ≤ 100`
together with the forward implication `position = 100 → finishTime ≠ null`.
(The claimed converse, `finishTime ≠ null → position = 100`, is not an
invariant: `endRace` stamps `finishTime` on connected players who never
reached 100 — see the counterexample.) -/
theorem position_le_100_preserved :
    (∀ (now interval ci w a : ℚ) (g : GameSession) (replay : Option RaceReplay)
        (pid : String) (res : GameSession × Option RaceReplay),
      sessionSafe g →
      updatePlayerProgress now interval g replay pid ci w a = some res →
      sessionSafe res.1) ∧
    (∀ (now w a ft : ℚ) (g : GameSession) (replay : Option RaceReplay)
        (pid : String)
        (res : Bool × GameSession × Option RaceReplay × List ServerEvent × List TimerReq),
      sessionSafe g → playerFinished now g replay pid w a ft = some res →
      sessionSafe res.2.1) ∧
    (∀ (now : ℚ) (g : GameSession) (replay : Option RaceReplay),
      sessionSafe g → sessionSafe (endRace now g replay).1) ∧
    (∀ (now : ℚ) (g : GameSession) (replay : Option RaceReplay) (pid : String)
        (res : GameSession × Bool × Option RaceReplay × List ServerEvent × List TimerReq),
      sessionSafe g → playerLeft now g replay pid = some res →
      sessionSafe res.1) := by
  refine ⟨?_, ?_, fun now g replay h => endRace_safe h, ?_⟩
  · intro now interval ci w a g replay pid res hsafe hres
    unfold updatePlayerProgress at hres
    split at hres
    · cases hres
    cases hfp : findPlayer g pid with
    | none => rw [hfp] at hres; cases hres
    | some player =>
      rw [hfp] at hres
      dsimp only at hres
      split at hres
      · cases hres; exact hsafe
      split at hres
      case isTrue hfin =>
        cases hres
        intro q hq
        rcases mem_updateFirstBy hq with hq | ⟨x, hx, _, rfl⟩
        · exact hsafe q hq
        · exact ⟨jsMin_le_right _ _, fun _ => by simp⟩
      case isFalse hfin =>
        cases hres
        intro q hq
        rcases mem_updateFirstBy hq with hq | ⟨x, hx, _, rfl⟩
        · exact hsafe q hq
        · refine ⟨jsMin_le_right _ _, fun h100 => ?_⟩
          intro hnone
          exact hfin ⟨le_of_eq h100.symm, hnone⟩
  · intro now w a ft g replay pid res hsafe hres
    unfold playerFinished at hres
    split at hres
    · cases hres
    cases hfp : findPlayer g pid with
    | none => rw [hfp] at hres; cases hres
    | some player =>
      rw [hfp] at hres
      dsimp only at hres
      split at hres
      · cases hres; exact hsafe
      split at hres
      · cases hres; exact hsafe
      have hsafe1 : sessionSafe
          { g with
            players := updateFirstBy (fun q => q.id == pid)
                (fun _ => { player with
                  position := 100, wpm := w, accuracy := a,
                  finishTime := some ft })
                g.players } := by
        intro q hq
        rcases mem_updateFirstBy hq with hq | ⟨x, hx, _, rfl⟩
        · exact hsafe q hq
        · exact ⟨le_refl _, fun _ => by simp⟩
      split at hres
      · cases hres
        exact endRace_safe hsafe1
      · cases hres
        exact hsafe1
  · intro now g replay pid res hsafe hres
    unfold playerLeft at hres
    cases hidx : g.players.findIdx? (fun p => p.id == pid) with
    | none => rw [hidx] at hres; cases hres
    | some i =>
      rw [hidx] at hres
      dsimp only at hres
      split at hres
      · cases hres
        intro q hq
        exact hsafe q ((List.eraseP_sublist g.players).subset hq)
      have hsafe1 : sessionSafe
          { g with
            players := updateFirstBy (fun p => p.id == pid)
                (fun p => { p with isConnected := false })
                g.players } := by
        intro q hq
        rcases mem_updateFirstBy hq with hq | ⟨x, hx, _, rfl⟩
        · exact hsafe q hq
        · exact (hsafe x hx)
      split at hres
      · split at hres
        · cases hres
          exact endRace_safe hsafe1
        · cases hres
          exact hsafe1
      · split at hres
        · cases hres
          exact endRace_safe hsafe1
        · cases hres
          exact hsafe1

/-- Counterexample for C1 as frozen: `gRace2` satisfies the biconditional
invariant and is Racing, but after `endRace` (the deadline path: both
players still at position 0) every connected player has a non-null
`finishTime` with `position ≠ 100`, so `position = 100 ↔ finishTime ≠ null`
fails. -/
theorem position_iff_finish_fails_on_endRace :
    positionFinishIff gRace2 ∧ gRace2.state = GameState.RACING ∧
      ¬ positionFinishIff (endRace 1000 gRace2 none).1 := by
  unfold positionFinishIff
  decide!

/-! ### Claim C9 -/

/-- The session with the first player of the given id marked disconnected —
what the non-Waiting branch of `playerLeft` does to the session. -/
def markLeft (g : GameSession) (pid : String) : GameSession :=
  { g with
    players := updateFirstBy (fun p => p.id == pid)
        (fun p => { p with isConnected := false }) g.players }

/-- Claim C9 (amended): when a player leaves a Countdown session the
session is retained with the player marked disconnected (and once nobody
connected remains, only a delayed cleanup is scheduled) — but nothing
cancels the countdown interval, so when the countdown reaches zero the
tick still fires `startRace`: the session transitions to Racing and
`game_started` IS emitted, contrary to the claim. -/
theorem countdown_abandon_still_starts :
    (∀ (now : ℚ) (g : GameSession) (replay : Option RaceReplay) (pid : String)
        (i : Nat),
      g.state = GameState.COUNTDOWN →
      g.players.findIdx? (fun p => p.id == pid) = some i →
      ((membersOf (markLeft g pid)).isEmpty = true →
        playerLeft now g replay pid =
          some (markLeft g pid, false, replay, [], [TimerReq.cleanupAfterDelay])) ∧
      ((membersOf (markLeft g pid)).isEmpty = false →
        playerLeft now g replay pid =
          some (markLeft g pid, false, replay, [], []))) ∧
    (∀ (now : ℚ) (g : GameSession) (replay : Option RaceReplay),
      g.countdown = some 1 →
      (countdownTick now g replay).1.state = GameState.RACING ∧
      (countdownTick now g replay).2.2.1 =
        [ServerEvent.gameCountdown g.id 0, ServerEvent.gameStarted g.id now]) := by
  constructor
  · intro now g replay pid i hstate hidx
    unfold markLeft
    constructor
    · intro hempty
      unfold playerLeft
      rw [hidx]
      dsimp only
      rw [if_neg (by simp [hstate]), if_pos hempty, if_neg (by simp [hstate])]
    · intro hempty
      unfold playerLeft
      rw [hidx]
      dsimp only
      rw [if_neg (by simp [hstate]), if_neg (by simp [hempty]),
        if_neg (by simp [hstate])]
  · intro now g replay hcd
    unfold countdownTick
    rw [hcd]
    have hmap : Option.map (fun c => c - 1) (some (1 : Int)) = some 0 := by
      simp
    rw [hmap]
    dsimp only
    rw [if_pos rfl]
    exact ⟨rfl, rfl⟩

/-- A two-racer session mid-countdown (one tick left). -/
def gCd : GameSession :=
  { gRace2 with
    state := GameState.COUNTDOWN, startTime := none, countdown := some 1 }

/-- `gCd` after Ada left. -/
def gCd1 : GameSession :=
  { gCd with players := [{ pA with isConnected := false }, pB] }

/-- `gCd` after both racers left. -/
def gCd2 : GameSession :=
  { gCd with
    players := [{ pA with isConnected := false }, { pB with isConnected := false }] }

/-- Counterexample for C9 as frozen: both players leave during the
countdown, the session is only scheduled for delayed cleanup, and the next
countdown tick still emits `game_started`. -/
theorem countdown_empty_game_started :
    playerLeft 10 gCd none "a" = some (gCd1, false, none, [], []) ∧
    playerLeft 11 gCd1 none "b" =
      some (gCd2, false, none, [], [TimerReq.cleanupAfterDelay]) ∧
    ServerEvent.gameStarted "g" 12 ∈ (countdownTick 12 gCd2 none).2.2.1 ∧
    (countdownTick 12 gCd2 none).1.state = GameState.RACING := by
  decide!

/-! ### Claim C4: the ranking order -/

/-- The spec's tie-break on `finishTime`: earlier non-null first, non-null
beats null, two nulls tie. -/
def finishPrec : Option ℚ → Option ℚ → Prop
  | some ta, some tb => ta ≤ tb
  | some _, none => True
  | none, some _ => False
  | none, none => True

/-- The documented ranking order, in the spec's words: higher `position`
first; on a position tie, `finishPrec` on the finish times. -/
def specOrder (a b : Player) : Prop :=
  b.position < a.position ∨
    (b.position = a.position ∧ finishPrec a.finishTime b.finishTime)

theorem compareRank_neg (a b : Player) : compareRank b a = -compareRank a b := by
  unfold compareRank
  by_cases h : b.position = a.position
  · rw [if_pos h.symm, if_pos h]
    cases a.finishTime <;> cases b.finishTime <;> simp
  · rw [if_neg (fun hh => h hh.symm), if_neg h]
    ring

theorem compareRank_le_zero_iff (a b : Player) :
    compareRank a b ≤ 0 ↔ specOrder a b := by
  unfold compareRank specOrder
  by_cases h : b.position = a.position
  · rw [if_pos h]
    cases ha : a.finishTime <;> cases hb : b.finishTime <;>
      simp [finishPrec, h, sub_nonpos]
  · rw [if_neg h]
    constructor
    · intro hle
      exact Or.inl (lt_of_le_of_ne (sub_nonpos.mp hle) h)
    · rintro (hlt | ⟨heq, _⟩)
      · exact sub_nonpos.mpr (le_of_lt hlt)
      · exact absurd heq h

theorem rankLe_iff_specOrder (a b : Player) : rankLe a b ↔ specOrder a b :=
  compareRank_le_zero_iff a b

theorem finishPrec_trans {x y z : Option ℚ} :
    finishPrec x y → finishPrec y z → finishPrec x z := by
  cases x <;> cases y <;> cases z <;> simp [finishPrec]
  exact fun h1 h2 => le_trans h1 h2

instance : IsTotal Player rankLe :=
  ⟨fun a b => by
    rcases le_total (compareRank a b) 0 with h | h
    · exact Or.inl h
    · right
      rw [rankLe, compareRank_neg]
      linarith⟩

instance : IsTrans Player rankLe :=
  ⟨fun a b c hab hbc => by
    rw [rankLe_iff_specOrder] at *
    unfold specOrder at *
    rcases hab with h1 | ⟨h1, h1f⟩ <;> rcases hbc with h2 | ⟨h2, h2f⟩
    · exact Or.inl (lt_trans h2 h1)
    · exact Or.inl (by rw [h2]; exact h1)
    · exact Or.inl (by rw [← h1]; exact h2)
    · exact Or.inr ⟨h2.trans h1, finishPrec_trans h1f h2f⟩⟩

theorem compareRank_zero_symm {a b : Player} (h : compareRank a b = 0) :
    compareRank b a = 0 := by
  rw [compareRank_neg, h, neg_zero]

theorem compareRank_zero_trans {b x y : Player} (hb : compareRank b x = 0)
    (hy : compareRank y x = 0) : compareRank b y = 0 := by
  have hxy : rankLe x y := (compareRank_zero_symm hy).le
  have hxb : rankLe x b := (compareRank_zero_symm hb).le
  have h1 : rankLe b y := @IsTrans.trans Player rankLe _ b x y hb.le hxy
  have h2 : rankLe y b := @IsTrans.trans Player rankLe _ y x b hy.le hxb
  have h3 : -compareRank b y ≤ 0 := by rw [← compareRank_neg]; exact h2
  have h4 : compareRank b y ≤ 0 := h1
  linarith

theorem filter_orderedInsert_ties_neg (x b : Player) (s : List Player)
    (hb : ¬ compareRank b x = 0) :
    (List.orderedInsert rankLe b s).filter (fun y => decide (compareRank y x = 0)) =
      s.filter (fun y => decide (compareRank y x = 0)) := by
  induction s with
  | nil => simp [hb]
  | cons y ys ih =>
    rw [List.orderedInsert]
    by_cases hr : rankLe b y
    · rw [if_pos hr]
      simp [List.filter_cons, hb]
    · rw [if_neg hr]
      by_cases hy : compareRank y x = 0
      · simp [List.filter_cons, hy, ih]
      · simp [List.filter_cons, hy, ih]

theorem filter_orderedInsert_ties_pos (x b : Player) (s : List Player)
    (hb : compareRank b x = 0) :
    (List.orderedInsert rankLe b s).filter (fun y => decide (compareRank y x = 0)) =
      b :: s.filter (fun y => decide (compareRank y x = 0)) := by
  induction s with
  | nil => simp [hb]
  | cons y ys ih =>
    rw [List.orderedInsert]
    by_cases hr : rankLe b y
    · rw [if_pos hr]
      simp [List.filter_cons, hb]
    · rw [if_neg hr]
      have hy : ¬ compareRank y x = 0 := by
        intro hy
        exact hr (le_of_eq (compareRank_zero_trans hb hy))
      simp [List.filter_cons, hy, ih]

/-- Stability of the modelled JS sort: each comparator-tie class comes out
in input order. -/
theorem insertionSort_ties_stable (x : Player) (l : List Player) :
    (l.insertionSort rankLe).filter (fun y => decide (compareRank y x = 0)) =
      l.filter (fun y => decide (compareRank y x = 0)) := by
  induction l with
  | nil => rfl
  | cons b l ih =>
    rw [List.insertionSort]
    by_cases hb : compareRank b x = 0
    · rw [filter_orderedInsert_ties_pos x b _ hb, ih]
      simp [List.filter_cons, hb]
    · rw [filter_orderedInsert_ties_neg x b _ hb, ih]
      simp [List.filter_cons, hb]

theorem orderedInsert_congr {r s : Player → Player → Prop}
    [DecidableRel r] [DecidableRel s] (b : Player) :
    ∀ m : List Player, (∀ y ∈ m, (r b y ↔ s b y)) →
      List.orderedInsert r b m = List.orderedInsert s b m := by
  intro m
  induction m with
  | nil => intro _; rfl
  | cons y ys ih =>
    intro h
    rw [List.orderedInsert, List.orderedInsert]
    by_cases hr : r b y
    · rw [if_pos hr, if_pos ((h y (List.mem_cons_self y ys)).mp hr)]
    · rw [if_neg hr, if_neg (fun hs => hr ((h y (List.mem_cons_self y ys)).mpr hs)),
        ih (fun z hz => h z (List.mem_cons_of_mem y hz))]

theorem insertionSort_congr {r s : Player → Player → Prop}
    [DecidableRel r] [DecidableRel s] :
    ∀ l : List Player, (∀ x ∈ l, ∀ y ∈ l, (r x y ↔ s x y)) →
      l.insertionSort r = l.insertionSort s := by
  intro l
  induction l with
  | nil => intro _; rfl
  | cons b l ih =>
    intro h
    rw [List.insertionSort, List.insertionSort,
      ih (fun x hx y hy => h x (List.mem_cons_of_mem b hx) y (List.mem_cons_of_mem b hy))]
    exact orderedInsert_congr b _ (fun y hy =>
      h b (List.mem_cons_self b l) y
        (List.mem_cons_of_mem b ((List.mem_insertionSort s).mp hy)))

theorem jsTruthy_eq_self {ft : Option ℚ} (h : ft ≠ some 0) : jsTruthy ft = ft := by
  cases ft with
  | none => rfl
  | some t =>
    have ht : t ≠ 0 := fun h0 => h (by rw [h0])
    simp [jsTruthy, ht]

theorem compareEnd_eq_compareRank {a b : Player} (ha : a.finishTime ≠ some 0)
    (hb : b.finishTime ≠ some 0) : compareEnd a b = compareRank a b := by
  unfold compareEnd compareRank
  rw [jsTruthy_eq_self ha, jsTruthy_eq_self hb]

theorem rankedFrom_length : ∀ (l : List Player) (n : Nat),
    (rankedFrom n l).length = l.length := by
  intro l
  induction l with
  | nil => intro n; rfl
  | cons p ps ih =>
    intro n
    rw [rankedFrom]
    simp [ih]

theorem rankedFrom_get : ∀ (l : List Player) (n i : Nat)
    (h : i < (rankedFrom n l).length) (h' : i < l.length),
    ((rankedFrom n l).get ⟨i, h⟩).rank = n + i + 1 ∧
      ((rankedFrom n l).get ⟨i, h⟩).id = (l.get ⟨i, h'⟩).id := by
  intro l
  induction l with
  | nil => intro n i h h'; cases h'
  | cons p ps ih =>
    intro n i h h'
    cases i with
    | zero => exact ⟨rfl, rfl⟩
    | succ j =>
      have hj : j < (rankedFrom (n + 1) ps).length := by
        rw [rankedFrom_length]
        exact Nat.lt_of_succ_lt_succ h'
      have hj' : j < ps.length := Nat.lt_of_succ_lt_succ h'
      have := ih (n + 1) j hj hj'
      refine ⟨?_, this.2⟩
      rw [show n + (j + 1) + 1 = n + 1 + j + 1 by omega]
      exact this.1

theorem findIdx?_map_nodup {β : Type} [BEq β] [LawfulBEq β] (f : Player → β) :
    ∀ (l : List Player) (start i : Nat) (h : i < l.length),
      (l.map f).Nodup →
      l.findIdx? (fun p => f p == f (l.get ⟨i, h⟩)) start = some (start + i) := by
  intro l
  induction l with
  | nil => intro start i h; cases h
  | cons x xs ih =>
    intro start i h hnd
    rw [List.map_cons, List.nodup_cons] at hnd
    cases i with
    | zero =>
      rw [List.findIdx?_cons, if_pos (by simp), Nat.add_zero]
    | succ j =>
      have hj : j < xs.length := Nat.lt_of_succ_lt_succ h
      rw [show (x :: xs).get ⟨j + 1, h⟩ = xs.get ⟨j, hj⟩ from rfl]
      have hne : (f x == f (xs.get ⟨j, hj⟩)) = false := by
        rw [beq_eq_false_iff_ne]
        intro hcontra
        exact hnd.1 (hcontra ▸ List.mem_map_of_mem f (xs.get_mem j hj))
      rw [List.findIdx?_cons, if_neg (by rw [hne]; simp)]
      rw [show start + (j + 1) = (start + 1) + j by omega]
      exact ih (start + 1) j hj hnd.2

/-- Claim C4 (amended): the ranking is computed on the connected
non-spectator players; the `getPlayerRank` sort is a permutation of them,
sorted under the documented order (higher position first, ties by
`finishPrec`), and stable (each comparator-tie class keeps input order);
the ranks `endRace` emits are 1-based; and — provided no player carries
`finishTime = 0` — the `endRace` comparator coincides with the
`getPlayerRank` comparator, so (with distinct ids) the rank `getPlayerRank`
computes equals the rank `endRace` emits for every entry.  (At
`finishTime = 0` the two comparators genuinely disagree: `endRace` turns
`0` into `Infinity` via `|| Infinity` — see the counterexample.) -/
theorem ranking_stable_and_agree :
    (∀ players : List Player, List.Sorted specOrder (rankSortList players)) ∧
    (∀ players : List Player, List.Perm (rankSortList players) (connectedRacers players)) ∧
    (∀ (players : List Player) (x : Player),
      (rankSortList players).filter (fun y => decide (compareRank y x = 0)) =
        (connectedRacers players).filter (fun y => decide (compareRank y x = 0))) ∧
    (∀ (players : List Player) (i : Nat) (h : i < (endRankList players).length),
      ((endRankList players).get ⟨i, h⟩).rank = i + 1) ∧
    (∀ players : List Player,
      (∀ p ∈ connectedRacers players, p.finishTime ≠ some 0) →
      endSortList players = rankSortList players ∧
      (((connectedRacers players).map (fun p => p.id)).Nodup →
        ∀ (i : Nat) (h : i < (endRankList players).length),
          rankOfList players (((endRankList players).get ⟨i, h⟩).id) =
            ((((endRankList players).get ⟨i, h⟩).rank : Nat) : Int))) := by
  have hlen : ∀ players : List Player,
      (endRankList players).length = (endSortList players).length :=
    fun players => rankedFrom_length (endSortList players) 0
  have hrank1 : ∀ (players : List Player) (i : Nat)
      (h : i < (endRankList players).length),
      ((endRankList players).get ⟨i, h⟩).rank = i + 1 := by
    intro players i h
    have h2 : i < (endSortList players).length := by
      rw [← hlen players]; exact h
    have hget := rankedFrom_get (endSortList players) 0 i h h2
    unfold endRankList
    rw [hget.1]
    omega
  refine ⟨?_, ?_, ?_, hrank1, ?_⟩
  · intro players
    exact List.Pairwise.imp (fun hxy => (rankLe_iff_specOrder _ _).mp hxy)
      (List.sorted_insertionSort rankLe (connectedRacers players))
  · intro players
    exact List.perm_insertionSort rankLe (connectedRacers players)
  · intro players x
    exact insertionSort_ties_stable x (connectedRacers players)
  · intro players hz
    have hS : endSortList players = rankSortList players := by
      unfold endSortList rankSortList
      refine insertionSort_congr (connectedRacers players) (fun x hx y hy => ?_)
      unfold endLe rankLe
      rw [compareEnd_eq_compareRank (hz x hx) (hz y hy)]
    refine ⟨hS, ?_⟩
    intro hnodup i h
    have h2 : i < (endSortList players).length := by
      rw [← hlen players]; exact h
    have hid : ((endRankList players).get ⟨i, h⟩).id =
        ((endSortList players).get ⟨i, h2⟩).id :=
      (rankedFrom_get (endSortList players) 0 i h h2).2
    have hnd : ((endSortList players).map (fun p => p.id)).Nodup := by
      refine (List.Perm.nodup_iff ?_).mpr hnodup
      exact List.Perm.map _ (hS ▸ List.perm_insertionSort rankLe (connectedRacers players))
    have hidx : (endSortList players).findIdx?
        (fun p => p.id == ((endSortList players).get ⟨i, h2⟩).id) = some i := by
      have := findIdx?_map_nodup (fun p => p.id) (endSortList players) 0 i h2 hnd
      simpa using this
    unfold rankOfList
    rw [show rankSortList players = endSortList players from hS.symm, hid, hidx,
      hrank1 players i h]
    push_cast
    ring

/-- A racer at position 50 who never finished. -/
def pX : Player := { pA with id := "x", position := 50 }

/-- A racer at position 50 whose client-reported `finishTime` is `0`. -/
def pY : Player := { pA with id := "y", position := 50, finishTime := some 0 }

/-- Counterexample for C4 as frozen: with `finishTime = 0`, `getPlayerRank`
treats it as a non-null finish (beats null ⇒ rank 1 for `pY`) while the
`endRace` comparator's `|| Infinity` treats it like null (stable order ⇒
rank 2 for `pY`): the two orderings disagree. -/
theorem ranking_comparators_disagree :
    rankOfList [pX, pY] "y" = 1 ∧
    (endRankList [pX, pY]).map (fun e => (e.id, e.rank)) = [("x", 1), ("y", 2)] := by
  decide!

end TypeRacer
